import Mathlib

/-!
Verification of the VoronoiGenerator repository (src/main.c) against its
natural-language specification.

The C program renders a Voronoi diagram into a fixed `HEIGHT × WIDTH` global
array `static Color image[HEIGHT][WIDTH]` of 32-bit packed colors and writes
it out as a binary PPM file.  The array is a contiguous block of memory, so
the shallow embedding models the pixel buffer as a flat memory
`img : Nat → Color` in which the C l-value `image[a][b]` denotes the cell at
flat address `a * WIDTH + b`.  This flat view is what makes the source's
index inconsistency (`image[x][y]` in `FillImage` versus `image[y][x]`
everywhere else) expressible.  Machine integers are modelled as `Int`
(C `int`) and `Nat` (C unsigned quantities); all arithmetic performed by the
program on reachable inputs stays far below 2^31, so no wrap-around is
modelled.  The image dimensions, seed count, colors and marker radius are
compile-time constants in the source; the embedding keeps them as named
constants and lets the geometric routines take the dimensions as parameters
exactly as the spec's configuration surface describes.
-/

set_option maxRecDepth 4000

namespace Voronoi

/-- Compile-time image width, `#define WIDTH 1000` in src/main.c. -/
def WIDTH : Nat := 1000

/-- Compile-time image height, `#define HEIGHT 1000` in src/main.c. -/
def HEIGHT : Nat := 1000

/-- Compile-time seed count, `#define SEEDS_COUNT 50` in src/main.c. -/
def SEEDS_COUNT : Nat := 50

/-- A 32-bit packed color value (`typedef uint32_t Color`). -/
abbrev Color := Nat

/-- `#define COLOR_BLACK 0xFF000000`. -/
def COLOR_BLACK : Color := 0xFF000000

/-- `#define COLOR_BACKGROUND 0xFF201717`. -/
def COLOR_BACKGROUND : Color := 0xFF201717

/-- `#define SEED_MARKER_RADIUS 4`. -/
def SEED_MARKER_RADIUS : Int := 4

/-- `#define SEED_MARKER_COLOR COLOR_BLACK`. -/
def SEED_MARKER_COLOR : Color := COLOR_BLACK

/-- The C struct `Vec2 { int x, y; }`: a pixel coordinate or seed location. -/
structure Vec2 where
  x : Int
  y : Int
  deriving DecidableEq

/-- C function `SquareDistance` (src/main.c lines 74-80): squared Euclidean
distance `dx*dx + dy*dy` between two points. -/
def SquareDistance (a b : Vec2) : Int :=
  let dx := a.x - b.x
  let dy := a.y - b.y
  dx * dx + dy * dy

/-- A single store `mem[addr] = color` into the flat pixel memory. -/
def writeAddr (addr : Nat) (color : Color) (img : Nat → Color) : Nat → Color :=
  fun a => if a = addr then color else img a

/-- C function `FillImage` (src/main.c lines 35-42).  The loops run
`y` over `[0, HEIGHT)` and `x` over `[0, WIDTH)` but store through the
TRANSPOSED l-value `image[x][y]`, i.e. flat address `x * W + y`. -/
def FillImage (W H : Nat) (color : Color) (img : Nat → Color) : Nat → Color :=
  (List.range H).foldl
    (fun im y => (List.range W).foldl (fun im2 x => writeAddr (x * W + y) color im2) im)
    img

/-- The three data bytes the pixel loop of `SaveImageAsPPM` emits for one
pixel (src/main.c lines 59-63), in emission order:
`(pixel & 0x0000FF) >> 0`, `(pixel & 0x00FF00) >> 8`, `(pixel & 0xFF0000) >> 16`. -/
def pixelBytes (pixel : Color) : List Nat :=
  [(pixel &&& 0x0000FF) >>> (8 * 0),
   (pixel &&& 0x00FF00) >>> (8 * 1),
   (pixel &&& 0xFF0000) >>> (8 * 2)]

/-- Observable events of `SaveImageAsPPM` (src/main.c lines 44-72).
`fileWrite opened tag` is an `fprintf`/`fwrite` through the `FILE*` returned
by `fopen` (`opened = false` means that pointer is `NULL`, so the write is
performed through a null stream); `tag 0` is the `P6` magic line, `tag 1`
the `WIDTH HEIGHT 255` dimension line and `tag 2` the pixel-data loop.
`diagnostic` is the `fprintf(stderr, ...)` that names the path and
`strerror(errno)`; `exited c` is `exit(c)`; `closed` is `fclose`. -/
inductive SaveEvent where
  | fileWrite (opened : Bool) (tag : Nat) : SaveEvent
  | diagnostic : SaveEvent
  | exited (code : Nat) : SaveEvent
  | closed : SaveEvent
  deriving DecidableEq

/-- Event trace of `SaveImageAsPPM` (src/main.c lines 44-72) as the source
orders its statements: `fopen` is followed UNCONDITIONALLY by the two header
`fprintf`s through the returned pointer, and only then does the
`file == NULL` check run, printing the diagnostic and calling `exit(1)` on
failure.  On success the pixel loop runs and the file is closed. -/
def SaveImageAsPPM_trace (openOk : Bool) : List SaveEvent :=
  [SaveEvent.fileWrite openOk 0, SaveEvent.fileWrite openOk 1] ++
    if openOk then [SaveEvent.fileWrite openOk 2, SaveEvent.closed]
    else [SaveEvent.diagnostic, SaveEvent.exited 1]

/-- C function `FillCircle` (src/main.c lines 82-102): iterate the half-open
bounding square `[origin.x - radius, origin.x + radius) ×
[origin.y - radius, origin.y + radius)` (each loop runs `2 * radius`
iterations when `radius > 0`, none otherwise), skip candidates outside
`[0, W) × [0, H)`, and paint `image[y][x]` (flat address `y * W + x`) when
the squared distance to the origin is at most `radius * radius`. -/
def FillCircle (W H : Nat) (origin : Vec2) (radius : Int) (color : Color)
    (img : Nat → Color) : Nat → Color :=
  (List.range (2 * radius).toNat).foldl
    (fun im (i : Nat) =>
      let x : Int := origin.x - radius + (i : Int)
      if 0 ≤ x ∧ x < (W : Int) then
        (List.range (2 * radius).toNat).foldl
          (fun im2 (j : Nat) =>
            let y : Int := origin.y - radius + (j : Int)
            if 0 ≤ y ∧ y < (H : Int) then
              if SquareDistance origin ⟨x, y⟩ ≤ radius * radius then
                writeAddr (y.toNat * W + x.toNat) color im2
              else im2
            else im2)
          im
      else im)
    img

/-- C function `GenerateRandomSeeds` (src/main.c lines 104-110).  The C
library `rand()` returns a nonnegative `int`; the successive return values
are modelled by the stream `rands`, consumed in call order: seed `i` gets
`x = rand() % WIDTH` (call `2*i`) and `y = rand() % HEIGHT` (call `2*i+1`). -/
def GenerateRandomSeeds (rands : Nat → Nat) : List Vec2 :=
  (List.range SEEDS_COUNT).map
    (fun i => ⟨(rands (2 * i) % WIDTH : Nat), (rands (2 * i + 1) % HEIGHT : Nat)⟩)

/-- C function `RenderSeedMarkers` (src/main.c lines 112-117): stamp a
marker disc at every seed, in seed order. -/
def RenderSeedMarkers (W H : Nat) (seeds : List Vec2) (img : Nat → Color) : Nat → Color :=
  seeds.foldl (fun im s => FillCircle W H s SEED_MARKER_RADIUS SEED_MARKER_COLOR im) img

/-- C function `SeedToColor` (src/main.c lines 119-130).  The four `assert`s
(`0 ≤ x`, `0 ≤ y`, `x < 1 << 16`, `y < 1 << 16`) are modelled as a guard:
`none` means an assertion fires and the process aborts.  Inside the guard the
coordinates are narrowed to `uint16_t` (reduction mod 2^16, the identity
under the guard) and packed as `(x << 16) ^ y`. -/
def SeedToColor (point : Vec2) : Option Color :=
  if 0 ≤ point.x ∧ 0 ≤ point.y ∧ point.x < 65536 ∧ point.y < 65536 then
    some (((point.x.toNat % 65536) <<< 16) ^^^ (point.y.toNat % 65536))
  else
    none

/-- Distance from pixel `point` to seed number `i`, exactly the expression
`SquareDistance(seeds[i], point)` of the scan loop in `RenderVoronoi`
(src/main.c lines 140-141). -/
def seedDist (seeds : List Vec2) (point : Vec2) (i : Nat) : Int :=
  SquareDistance (seeds.getD i ⟨0, 0⟩) point

/-- The nearest-seed scan of `RenderVoronoi` (src/main.c lines 136-146):
`closestSeedIdx` starts at 0 and the loop runs `i` over `[1, n)`, replacing
the running best only on a strictly smaller distance. -/
def closestSeedIdx (seeds : List Vec2) (point : Vec2) : Nat :=
  (List.range' 1 (seeds.length - 1)).foldl
    (fun best i => if seedDist seeds point i < seedDist seeds point best then i else best)
    0

/-- The color `RenderVoronoi` stores at pixel `(x, y)` (src/main.c lines
148-149): `SeedToColor(seeds[closestSeedIdx])`.  A firing assertion aborts
the process, so the `Option` is collapsed with an arbitrary default; every
theorem below only uses it where the guard is proved to hold. -/
def voronoiPixelColor (seeds : List Vec2) (x y : Nat) : Color :=
  (SeedToColor (seeds.getD (closestSeedIdx seeds ⟨(x : Int), (y : Int)⟩) ⟨0, 0⟩)).getD 0

/-- Row-major traversal writing `f x y` to `image[y][x]` (flat address
`y * W + x`) for `y` in `[0, H)`, `x` in `[0, W)`: the common shape of the
pixel loops of `RenderVoronoi` and of a row-major full fill. -/
def renderGrid (W H : Nat) (f : Nat → Nat → Color) (img : Nat → Color) : Nat → Color :=
  (List.range H).foldl
    (fun im y => (List.range W).foldl (fun im2 x => writeAddr (y * W + x) (f x y) im2) im)
    img

/-- C function `RenderVoronoi` (src/main.c lines 132-152): for every pixel
`(x, y)` of the raster, store the color of the nearest seed at
`image[y][x]`. -/
def RenderVoronoi (W H : Nat) (seeds : List Vec2) (img : Nat → Color) : Nat → Color :=
  renderGrid W H (fun x y => voronoiPixelColor seeds x y) img

/-- Modelled from the spec: the spec's design note (§9) asks to compare the
source's transposed fill with "a row-major fill over the whole square
buffer", i.e. the fill that writes the color through `image[y][x]` for every
row `y` and column `x`, the same convention used by the render and save
routines.  This definition follows the spec's words, for comparison with
`FillImage` above, which is translated from the source. -/
def FillImageRowMajor (W H : Nat) (color : Color) (img : Nat → Color) : Nat → Color :=
  renderGrid W H (fun _ _ => color) img

/-! ### Byte extraction lemmas for the PPM pixel loop -/

lemma and_255_eq_mod (p : Nat) : p &&& 255 = p % 256 := by
  have h := Nat.and_pow_two_sub_one_eq_mod p 8
  norm_num at h
  exact h

lemma and_shift_mid (p : Nat) : (p &&& 65280) >>> 8 = p / 256 % 256 := by
  have h1 : (p &&& 65280) >>> 8 = (p >>> 8) &&& 255 := by
    apply Nat.eq_of_testBit_eq
    intro i
    simp only [Nat.testBit_shiftRight, Nat.testBit_and]
    congr 1
    rw [(by decide : (65280 : Nat) = 255 <<< 8), Nat.testBit_shiftLeft]
    have h8 : 8 ≤ 8 + i := Nat.le_add_right 8 i
    simp [h8, Nat.add_sub_cancel_left]
  rw [h1, Nat.shiftRight_eq_div_pow, and_255_eq_mod]

lemma and_shift_hi (p : Nat) : (p &&& 16711680) >>> 16 = p / 65536 % 256 := by
  have h1 : (p &&& 16711680) >>> 16 = (p >>> 16) &&& 255 := by
    apply Nat.eq_of_testBit_eq
    intro i
    simp only [Nat.testBit_shiftRight, Nat.testBit_and]
    congr 1
    rw [(by decide : (16711680 : Nat) = 255 <<< 16), Nat.testBit_shiftLeft]
    have h16 : 16 ≤ 16 + i := Nat.le_add_right 16 i
    simp [h16, Nat.add_sub_cancel_left]
  rw [h1, Nat.shiftRight_eq_div_pow, and_255_eq_mod]

/-- C5: for every pixel, the 3 bytes emitted by the save loop are the three
lowest-order bytes of the 32-bit packed in-memory color, least-significant
first (byte0 = bits 7..0, byte1 = bits 15..8, byte2 = bits 23..16), so
reassembling them as byte0 + 256·byte1 + 65536·byte2 reconstructs exactly
the low-order 24 bits of the color that was in the buffer, the topmost
channel byte being dropped. -/
theorem pixelBytes_lsb_first_roundTrip (pixel : Color) :
    pixelBytes pixel = [pixel % 256, pixel / 256 % 256, pixel / 65536 % 256] ∧
    pixel % 256 + 256 * (pixel / 256 % 256) + 65536 * (pixel / 65536 % 256) =
      pixel % 16777216 := by
  constructor
  · show [(pixel &&& 255) >>> (8 * 0), (pixel &&& 65280) >>> (8 * 1),
      (pixel &&& 16711680) >>> (8 * 2)] = _
    norm_num
    exact ⟨and_255_eq_mod pixel, and_shift_mid pixel, and_shift_hi pixel⟩
  · exact (by intro p; omega :
      ∀ p : Nat, p % 256 + 256 * (p / 256 % 256) + 65536 * (p / 65536 % 256) =
        p % 16777216) pixel

/-- C9: `FillCircle` called with radius 0 paints zero pixels: the half-open
bounding-square iteration `[x-0, x+0) × [y-0, y+0)` is an empty range, so
the buffer is returned unchanged. -/
theorem fillCircle_radius_zero (W H : Nat) (origin : Vec2) (color : Color)
    (img : Nat → Color) : FillCircle W H origin 0 color img = img := rfl

/-- C3 (code bug): when `fopen` fails (`openOk = false`), the source performs
the two header `fprintf`s THROUGH THE NULL FILE POINTER before the
`file == NULL` check runs, and only then prints the diagnostic and calls
`exit(1)`: the trace of src/main.c lines 46-53 begins with two file-write
events, contradicting the claim that no write to the file is performed
before terminating (in C these two writes are undefined behavior). -/
theorem savePPM_writes_through_null_handle_before_exit :
    SaveImageAsPPM_trace false =
      [SaveEvent.fileWrite false 0, SaveEvent.fileWrite false 1,
       SaveEvent.diagnostic, SaveEvent.exited 1] := rfl

/-- C8: every seed produced by `GenerateRandomSeeds` has `0 ≤ x < WIDTH` and
`0 ≤ y < HEIGHT`; consequently the 16-bit packable-range preconditions
checked by the four assertions of `SeedToColor` hold for every generated
seed, so the assertion-failure branch is unreachable (`SeedToColor` returns
`some`). -/
theorem generatedSeeds_in_bounds_and_packable (rands : Nat → Nat) (s : Vec2)
    (hs : s ∈ GenerateRandomSeeds rands) :
    0 ≤ s.x ∧ s.x < (WIDTH : Int) ∧ 0 ≤ s.y ∧ s.y < (HEIGHT : Int) ∧
      (SeedToColor s).isSome := by
  unfold GenerateRandomSeeds at hs
  rw [List.mem_map] at hs
  obtain ⟨i, -, rfl⟩ := hs
  have hx : rands (2 * i) % WIDTH < 1000 := Nat.mod_lt _ (by decide)
  have hy : rands (2 * i + 1) % HEIGHT < 1000 := Nat.mod_lt _ (by decide)
  have hx16 : ((rands (2 * i) % WIDTH : Nat) : Int) < 65536 := by
    exact_mod_cast hx.trans_le (by norm_num)
  have hy16 : ((rands (2 * i + 1) % HEIGHT : Nat) : Int) < 65536 := by
    exact_mod_cast hy.trans_le (by norm_num)
  have hxW : ((rands (2 * i) % WIDTH : Nat) : Int) < (WIDTH : Int) := by
    exact_mod_cast Nat.mod_lt _ (show 0 < WIDTH by decide)
  have hyH : ((rands (2 * i + 1) % HEIGHT : Nat) : Int) < (HEIGHT : Int) := by
    exact_mod_cast Nat.mod_lt _ (show 0 < HEIGHT by decide)
  refine ⟨Int.natCast_nonneg _, hxW, Int.natCast_nonneg _, hyH, ?_⟩
  show (SeedToColor ⟨((rands (2 * i) % WIDTH : Nat) : Int),
    ((rands (2 * i + 1) % HEIGHT : Nat) : Int)⟩).isSome
  unfold SeedToColor
  rw [if_pos ⟨Int.natCast_nonneg _, Int.natCast_nonneg _, hx16, hy16⟩]
  rfl

/-- Witness for C8 at a concrete input: the all-zero random stream yields
the seed (0, 0), which is in bounds and accepted by `SeedToColor`. -/
theorem generatedSeeds_in_bounds_and_packable_app :
    0 ≤ (⟨0, 0⟩ : Vec2).x ∧ (⟨0, 0⟩ : Vec2).x < (WIDTH : Int) ∧
      0 ≤ (⟨0, 0⟩ : Vec2).y ∧ (⟨0, 0⟩ : Vec2).y < (HEIGHT : Int) ∧
      (SeedToColor ⟨0, 0⟩).isSome :=
  generatedSeeds_in_bounds_and_packable (fun _ => 0) ⟨0, 0⟩ (by decide)

/-! ### Flat-memory characterization of the row-major pixel loops -/

lemma writeAddr_self (addr : Nat) (c : Color) (img : Nat → Color) :
    writeAddr addr c img addr = c := if_pos rfl

lemma writeAddr_other (addr a : Nat) (c : Color) (img : Nat → Color) (h : a ≠ addr) :
    writeAddr addr c img a = img a := if_neg h

lemma rowFold_hit (W : Nat) (f : Nat → Nat → Color) (y : Nat) :
    ∀ (n : Nat) (im : Nat → Color) (x : Nat), x < n →
      ((List.range n).foldl (fun im2 x2 => writeAddr (y * W + x2) (f x2 y) im2) im)
        (y * W + x) = f x y := by
  intro n
  induction n with
  | zero => intro im x hx; exact absurd hx (Nat.not_lt_zero x)
  | succ n ih =>
    intro im x hx
    rw [List.range_succ, List.foldl_append, List.foldl_cons, List.foldl_nil]
    by_cases hxn : x = n
    · subst hxn
      exact writeAddr_self _ _ _
    · rw [writeAddr_other _ _ _ _ (fun h => hxn (Nat.add_left_cancel h))]
      exact ih im x (by omega)

lemma rowFold_miss (W : Nat) (f : Nat → Nat → Color) (y : Nat) :
    ∀ (n : Nat) (im : Nat → Color) (a : Nat), (∀ x, x < n → a ≠ y * W + x) →
      ((List.range n).foldl (fun im2 x2 => writeAddr (y * W + x2) (f x2 y) im2) im) a =
        im a := by
  intro n
  induction n with
  | zero => intro im a _; rfl
  | succ n ih =>
    intro im a h
    rw [List.range_succ, List.foldl_append, List.foldl_cons, List.foldl_nil,
      writeAddr_other _ _ _ _ (h n (Nat.lt_succ_self n))]
    exact ih im a (fun x hx => h x (Nat.lt_succ_of_lt hx))

lemma renderGrid_hit (W : Nat) (f : Nat → Nat → Color) :
    ∀ (H : Nat) (img : Nat → Color) (x y : Nat), x < W → y < H →
      renderGrid W H f img (y * W + x) = f x y := by
  intro H
  induction H with
  | zero => intro img x y _ hy; exact absurd hy (Nat.not_lt_zero y)
  | succ H ih =>
    intro img x y hx hy
    unfold renderGrid
    rw [List.range_succ, List.foldl_append, List.foldl_cons, List.foldl_nil]
    by_cases hyH : y = H
    · subst hyH
      exact rowFold_hit W f y W _ x hx
    · have hy' : y < H := by omega
      rw [rowFold_miss W f H W _ (y * W + x) ?hmiss]
      · exact ih img x y hx hy'
      case hmiss =>
        intro x2 _ heq
        have h1 : y * W + x < (y + 1) * W := by
          rw [Nat.succ_mul]
          exact Nat.add_lt_add_left hx _
        have h2 : (y + 1) * W ≤ H * W := Nat.mul_le_mul_right W (by omega)
        have h3 : y * W + x < H * W + x2 :=
          Nat.lt_of_lt_of_le (Nat.lt_of_lt_of_le h1 h2) (Nat.le_add_right _ _)
        exact absurd heq (Nat.ne_of_lt h3)

lemma renderGrid_miss (W : Nat) (f : Nat → Nat → Color) :
    ∀ (H : Nat) (img : Nat → Color) (a : Nat),
      (∀ x y, x < W → y < H → a ≠ y * W + x) → renderGrid W H f img a = img a := by
  intro H
  induction H with
  | zero => intro img a _; rfl
  | succ H ih =>
    intro img a h
    unfold renderGrid
    rw [List.range_succ, List.foldl_append, List.foldl_cons, List.foldl_nil,
      rowFold_miss W f H W _ a (fun x2 hx2 => h x2 H hx2 (Nat.lt_succ_self H))]
    exact ih img a (fun x y hx hy => h x y hx (Nat.lt_succ_of_lt hy))

lemma fillRow_hit (W : Nat) (c : Color) (y : Nat) :
    ∀ (n : Nat) (im : Nat → Color) (a : Nat), (∃ x, x < n ∧ a = x * W + y) →
      ((List.range n).foldl (fun im2 x2 => writeAddr (x2 * W + y) c im2) im) a = c := by
  intro n
  induction n with
  | zero =>
    intro im a h
    obtain ⟨x, hx, -⟩ := h
    exact absurd hx (Nat.not_lt_zero x)
  | succ n ih =>
    intro im a h
    obtain ⟨x, hx, ha⟩ := h
    rw [List.range_succ, List.foldl_append, List.foldl_cons, List.foldl_nil]
    by_cases han : a = n * W + y
    · rw [han]
      exact writeAddr_self _ _ _
    · rw [writeAddr_other _ _ _ _ han]
      have hx' : x < n := by
        rcases Nat.lt_succ_iff_lt_or_eq.mp hx with hlt | heq
        · exact hlt
        · subst heq; exact absurd ha han
      exact ih im a ⟨x, hx', ha⟩

lemma fillRow_miss (W : Nat) (c : Color) (y : Nat) :
    ∀ (n : Nat) (im : Nat → Color) (a : Nat), (∀ x, x < n → a ≠ x * W + y) →
      ((List.range n).foldl (fun im2 x2 => writeAddr (x2 * W + y) c im2) im) a = im a := by
  intro n
  induction n with
  | zero => intro im a _; rfl
  | succ n ih =>
    intro im a h
    rw [List.range_succ, List.foldl_append, List.foldl_cons, List.foldl_nil,
      writeAddr_other _ _ _ _ (h n (Nat.lt_succ_self n))]
    exact ih im a (fun x hx => h x (Nat.lt_succ_of_lt hx))

lemma fillImage_hit (W : Nat) (c : Color) :
    ∀ (H : Nat) (img : Nat → Color) (a : Nat),
      (∃ x y, x < W ∧ y < H ∧ a = x * W + y) → FillImage W H c img a = c := by
  intro H
  induction H with
  | zero =>
    intro img a h
    obtain ⟨x, y, -, hy, -⟩ := h
    exact absurd hy (Nat.not_lt_zero y)
  | succ H ih =>
    intro img a h
    obtain ⟨x, y, hx, hy, ha⟩ := h
    unfold FillImage
    rw [List.range_succ, List.foldl_append, List.foldl_cons, List.foldl_nil]
    by_cases hrow : ∃ x2, x2 < W ∧ a = x2 * W + H
    · exact fillRow_hit W c H W _ a hrow
    · push_neg at hrow
      rw [fillRow_miss W c H W _ a hrow]
      have hy' : y < H := by
        rcases Nat.lt_succ_iff_lt_or_eq.mp hy with hlt | heq
        · exact hlt
        · subst heq; exact absurd ha (hrow x hx)
      exact ih img a ⟨x, y, hx, hy', ha⟩

lemma fillImage_miss (W : Nat) (c : Color) :
    ∀ (H : Nat) (img : Nat → Color) (a : Nat),
      (∀ x y, x < W → y < H → a ≠ x * W + y) → FillImage W H c img a = img a := by
  intro H
  induction H with
  | zero => intro img a _; rfl
  | succ H ih =>
    intro img a h
    unfold FillImage
    rw [List.range_succ, List.foldl_append, List.foldl_cons, List.foldl_nil,
      fillRow_miss W c H W _ a (fun x2 hx2 => h x2 H hx2 (Nat.lt_succ_self H))]
    exact ih img a (fun x y hx hy => h x y hx (Nat.lt_succ_of_lt hy))

/-- C6: when width equals height (`N × N` buffer), `FillImage` sets every
pixel of the buffer to the given color even though it stores through the
transposed l-value `image[x][y]` while the render/save routines read
`image[y][x]`: the transposed-index fill is extensionally equal (as a
function on the whole flat memory) to the row-major fill, and every pixel
`image[row][col]` of the square buffer holds the color. -/
theorem fillImage_square_equals_rowMajor (N : Nat) (c : Color) (img : Nat → Color) :
    FillImage N N c img = FillImageRowMajor N N c img ∧
    (∀ row col, row < N → col < N → FillImage N N c img (row * N + col) = c) := by
  constructor
  · funext a
    by_cases h : ∃ x y, x < N ∧ y < N ∧ a = x * N + y
    · obtain ⟨x, y, hx, hy, ha⟩ := h
      rw [fillImage_hit N c N img a ⟨x, y, hx, hy, ha⟩, ha]
      exact (renderGrid_hit N (fun _ _ => c) N img y x hy hx).symm
    · push_neg at h
      rw [fillImage_miss N c N img a h]
      exact (renderGrid_miss N (fun _ _ => c) N img a
        (fun x y hx hy => h y x hy hx)).symm
  · intro row col hrow hcol
    exact fillImage_hit N c N img _ ⟨row, col, hrow, hcol, rfl⟩

/-- Witness for C6 at concrete input: on a 2 × 2 buffer filled with color 5
over an all-zero initial memory, pixel `image[1][1]` holds 5 and the
transposed fill agrees with the row-major fill. -/
theorem fillImage_square_equals_rowMajor_app :
    FillImage 2 2 5 (fun _ => 0) (1 * 2 + 1) = 5 ∧
    FillImage 2 2 5 (fun _ => 0) = FillImageRowMajor 2 2 5 (fun _ => 0) :=
  ⟨(fillImage_square_equals_rowMajor 2 5 (fun _ => 0)).2 1 1 (by decide) (by decide),
   (fillImage_square_equals_rowMajor 2 5 (fun _ => 0)).1⟩

/-! ### The nearest-seed scan of RenderVoronoi -/

/-- The scan loop of `RenderVoronoi`, started at index `a` with `k`
iterations remaining and running best index `b`. -/
def scanFrom (seeds : List Vec2) (point : Vec2) (a k b : Nat) : Nat :=
  (List.range' a k).foldl
    (fun best i => if seedDist seeds point i < seedDist seeds point best then i else best)
    b

lemma closestSeedIdx_eq_scanFrom (seeds : List Vec2) (point : Vec2) :
    closestSeedIdx seeds point = scanFrom seeds point 1 (seeds.length - 1) 0 := rfl

lemma scanFrom_succ (seeds : List Vec2) (point : Vec2) (a k b : Nat) :
    scanFrom seeds point a (k + 1) b =
      scanFrom seeds point (a + 1) k
        (if seedDist seeds point a < seedDist seeds point b then a else b) := by
  unfold scanFrom
  rw [List.range'_succ, List.foldl_cons]

/-- Loop invariant of the nearest-seed scan: starting from a running best
`b` that is strictly better than every index before it and at least as good
as every index already scanned (`< a`), the final best is a valid index
strictly better than everything before it and at least as good as every
scanned index. -/
lemma scan_inv (seeds : List Vec2) (point : Vec2) :
    ∀ (k a b : Nat), b < a →
      (∀ j, j < b → seedDist seeds point b < seedDist seeds point j) →
      (∀ j, j < a → seedDist seeds point b ≤ seedDist seeds point j) →
      scanFrom seeds point a k b < a + k ∧
      (∀ j, j < scanFrom seeds point a k b →
        seedDist seeds point (scanFrom seeds point a k b) < seedDist seeds point j) ∧
      (∀ j, j < a + k →
        seedDist seeds point (scanFrom seeds point a k b) ≤ seedDist seeds point j) := by
  intro k
  induction k with
  | zero =>
    intro a b hba hstrict hle
    have h0 : scanFrom seeds point a 0 b = b := rfl
    rw [h0]
    exact ⟨by omega, hstrict, fun j hj => hle j (by omega)⟩
  | succ k ih =>
    intro a b hba hstrict hle
    rw [scanFrom_succ]
    by_cases hc : seedDist seeds point a < seedDist seeds point b
    · rw [if_pos hc]
      have hstrict' : ∀ j, j < a → seedDist seeds point a < seedDist seeds point j :=
        fun j hj => lt_of_lt_of_le hc (hle j hj)
      have hle' : ∀ j, j < a + 1 → seedDist seeds point a ≤ seedDist seeds point j := by
        intro j hj
        rcases Nat.lt_succ_iff_lt_or_eq.mp hj with h | h
        · exact le_of_lt (hstrict' j h)
        · subst h; exact le_refl _
      have hrec := ih (a + 1) a (Nat.lt_succ_self a) hstrict' hle'
      exact ⟨by omega, hrec.2.1, fun j hj => hrec.2.2 j (by omega)⟩
    · rw [if_neg hc]
      have hle' : ∀ j, j < a + 1 → seedDist seeds point b ≤ seedDist seeds point j := by
        intro j hj
        rcases Nat.lt_succ_iff_lt_or_eq.mp hj with h | h
        · exact hle j h
        · subst h; exact le_of_not_lt hc
      have hrec := ih (a + 1) b (by omega) hstrict hle'
      exact ⟨by omega, hrec.2.1, fun j hj => hrec.2.2 j (by omega)⟩

/-- Specification of the full scan: for a nonempty seed list the chosen
index is valid, no seed has a strictly smaller distance, and every index
before the chosen one is strictly worse (so the chosen index is the
EARLIEST among the minimizers: the running best is replaced only on strict
less-than). -/
lemma closest_spec (seeds : List Vec2) (point : Vec2) (h : seeds ≠ []) :
    closestSeedIdx seeds point < seeds.length ∧
    (∀ j, j < closestSeedIdx seeds point →
      seedDist seeds point (closestSeedIdx seeds point) < seedDist seeds point j) ∧
    (∀ j, j < seeds.length →
      seedDist seeds point (closestSeedIdx seeds point) ≤ seedDist seeds point j) := by
  have hlen : 0 < seeds.length := List.length_pos.mpr h
  rw [closestSeedIdx_eq_scanFrom]
  have hrec := scan_inv seeds point (seeds.length - 1) 1 0 (by omega)
    (fun j hj => absurd hj (Nat.not_lt_zero j))
    (fun j hj => by
      have hj0 : j = 0 := by omega
      subst hj0
      exact le_refl _)
  exact ⟨by omega, hrec.2.1, fun j hj => hrec.2.2 j (by omega)⟩

/-- C1: for every pixel `(x, y)` and every nonempty seed list, `RenderVoronoi`
assigns the pixel the seed `seeds[closestSeedIdx]`, which is a member of the
seed list, has no strictly closer competitor (squared Euclidean distance),
and is the EARLIEST seed in iteration order among those at minimal distance
(every earlier index is strictly farther, because the running best is
replaced only on strict less-than); the stored color is derived from that
seed alone. -/
theorem renderVoronoi_assigns_nearest_earliest (W H : Nat) (seeds : List Vec2)
    (img : Nat → Color) (x y : Nat) (hx : x < W) (hy : y < H) (hne : seeds ≠ []) :
    closestSeedIdx seeds ⟨(x : Int), (y : Int)⟩ < seeds.length ∧
    seeds.getD (closestSeedIdx seeds ⟨(x : Int), (y : Int)⟩) ⟨0, 0⟩ ∈ seeds ∧
    (∀ j, j < seeds.length →
      SquareDistance (seeds.getD (closestSeedIdx seeds ⟨(x : Int), (y : Int)⟩) ⟨0, 0⟩)
          ⟨(x : Int), (y : Int)⟩ ≤
        SquareDistance (seeds.getD j ⟨0, 0⟩) ⟨(x : Int), (y : Int)⟩) ∧
    (∀ j, j < closestSeedIdx seeds ⟨(x : Int), (y : Int)⟩ →
      SquareDistance (seeds.getD (closestSeedIdx seeds ⟨(x : Int), (y : Int)⟩) ⟨0, 0⟩)
          ⟨(x : Int), (y : Int)⟩ <
        SquareDistance (seeds.getD j ⟨0, 0⟩) ⟨(x : Int), (y : Int)⟩) ∧
    RenderVoronoi W H seeds img (y * W + x) =
      (SeedToColor
        (seeds.getD (closestSeedIdx seeds ⟨(x : Int), (y : Int)⟩) ⟨0, 0⟩)).getD 0 := by
  obtain ⟨h1, h2, h3⟩ := closest_spec seeds ⟨(x : Int), (y : Int)⟩ hne
  refine ⟨h1, ?_, h3, h2, ?_⟩
  · rw [List.getD_eq_getElem _ _ h1]
    exact List.getElem_mem h1
  · exact renderGrid_hit W (fun a b => voronoiPixelColor seeds a b) H img x y hx hy

/-- Witness for C1 at the spec's end-to-end scenario: 10 × 10 raster, seeds
(2,2) then (7,7); pixel (0,0) classifies to seed (2,2) (squared distances
8 versus 98). -/
theorem renderVoronoi_assigns_nearest_earliest_app :
    closestSeedIdx [⟨2, 2⟩, ⟨7, 7⟩] ⟨((0 : Nat) : Int), ((0 : Nat) : Int)⟩ <
      ([⟨2, 2⟩, ⟨7, 7⟩] : List Vec2).length ∧
    ([⟨2, 2⟩, ⟨7, 7⟩] : List Vec2).getD
      (closestSeedIdx [⟨2, 2⟩, ⟨7, 7⟩] ⟨((0 : Nat) : Int), ((0 : Nat) : Int)⟩) ⟨0, 0⟩ ∈
      ([⟨2, 2⟩, ⟨7, 7⟩] : List Vec2) ∧
    (∀ j, j < ([⟨2, 2⟩, ⟨7, 7⟩] : List Vec2).length →
      SquareDistance
          (([⟨2, 2⟩, ⟨7, 7⟩] : List Vec2).getD
            (closestSeedIdx [⟨2, 2⟩, ⟨7, 7⟩] ⟨((0 : Nat) : Int), ((0 : Nat) : Int)⟩) ⟨0, 0⟩)
          ⟨((0 : Nat) : Int), ((0 : Nat) : Int)⟩ ≤
        SquareDistance (([⟨2, 2⟩, ⟨7, 7⟩] : List Vec2).getD j ⟨0, 0⟩)
          ⟨((0 : Nat) : Int), ((0 : Nat) : Int)⟩) ∧
    (∀ j, j < closestSeedIdx [⟨2, 2⟩, ⟨7, 7⟩] ⟨((0 : Nat) : Int), ((0 : Nat) : Int)⟩ →
      SquareDistance
          (([⟨2, 2⟩, ⟨7, 7⟩] : List Vec2).getD
            (closestSeedIdx [⟨2, 2⟩, ⟨7, 7⟩] ⟨((0 : Nat) : Int), ((0 : Nat) : Int)⟩) ⟨0, 0⟩)
          ⟨((0 : Nat) : Int), ((0 : Nat) : Int)⟩ <
        SquareDistance (([⟨2, 2⟩, ⟨7, 7⟩] : List Vec2).getD j ⟨0, 0⟩)
          ⟨((0 : Nat) : Int), ((0 : Nat) : Int)⟩) ∧
    RenderVoronoi 10 10 [⟨2, 2⟩, ⟨7, 7⟩] (fun _ => 0) (0 * 10 + 0) =
      (SeedToColor
        (([⟨2, 2⟩, ⟨7, 7⟩] : List Vec2).getD
          (closestSeedIdx [⟨2, 2⟩, ⟨7, 7⟩] ⟨((0 : Nat) : Int), ((0 : Nat) : Int)⟩)
          ⟨0, 0⟩)).getD 0 := by
  exact renderVoronoi_assigns_nearest_earliest 10 10 [⟨2, 2⟩, ⟨7, 7⟩] (fun _ => 0) 0 0
    (by decide) (by decide) (by decide)

/-- C4: for seeds whose coordinates fit the 16-bit packable range checked by
the `SeedToColor` assertions, the color `RenderVoronoi` assigns to a pixel of
a seed's region equals the winning seed's x shifted left 16 bits XOR the
winning seed's y — a function of the winning seed's coordinates only, not of
the pixel's. -/
theorem renderVoronoi_color_is_seed_hash (W H : Nat) (seeds : List Vec2)
    (img : Nat → Color) (x y : Nat) (hx : x < W) (hy : y < H) (hne : seeds ≠ [])
    (hrange : ∀ s ∈ seeds, 0 ≤ s.x ∧ s.x < 65536 ∧ 0 ≤ s.y ∧ s.y < 65536) :
    RenderVoronoi W H seeds img (y * W + x) =
      ((seeds.getD (closestSeedIdx seeds ⟨(x : Int), (y : Int)⟩) ⟨0, 0⟩).x.toNat <<< 16) ^^^
        (seeds.getD (closestSeedIdx seeds ⟨(x : Int), (y : Int)⟩) ⟨0, 0⟩).y.toNat := by
  obtain ⟨h1, -, -⟩ := closest_spec seeds ⟨(x : Int), (y : Int)⟩ hne
  set w := seeds.getD (closestSeedIdx seeds ⟨(x : Int), (y : Int)⟩) ⟨0, 0⟩ with hw
  have hmem : w ∈ seeds := by
    rw [hw, List.getD_eq_getElem _ _ h1]
    exact List.getElem_mem h1
  obtain ⟨ha, hb, hc, hd⟩ := hrange w hmem
  have hgrid : RenderVoronoi W H seeds img (y * W + x) = voronoiPixelColor seeds x y :=
    renderGrid_hit W (fun a b => voronoiPixelColor seeds a b) H img x y hx hy
  rw [hgrid]
  unfold voronoiPixelColor
  rw [← hw]
  unfold SeedToColor
  rw [if_pos ⟨ha, hc, hb, hd⟩, Option.getD_some,
    Nat.mod_eq_of_lt (show w.x.toNat < 65536 by omega),
    Nat.mod_eq_of_lt (show w.y.toNat < 65536 by omega)]

/-- Witness for C4 at the spec's example: a pixel won by seed (2,2) receives
color 0x20002. -/
theorem renderVoronoi_color_is_seed_hash_app :
    RenderVoronoi 10 10 [⟨2, 2⟩] (fun _ => 0) (0 * 10 + 0) = 0x20002 := by
  exact (renderVoronoi_color_is_seed_hash 10 10 [⟨2, 2⟩] (fun _ => 0) 0 0
    (by decide) (by decide) (by decide) (by decide)).trans (by decide)

/-- C10 (amended): `RenderVoronoi` unconditionally overwrites every pixel of
the buffer with a color derived from the winning seed alone — the result at
every pixel is independent of the buffer contents before the call — and for
every seed set whose coordinates lie in `[0, WIDTH) × [0, HEIGHT)` (the
invariant `GenerateRandomSeeds` establishes for all seed sets the program
ever renders), the assigned color differs from `COLOR_BACKGROUND`, so the
configured background color is not observable. -/
theorem renderVoronoi_overwrites_every_pixel (seeds : List Vec2)
    (img1 img2 : Nat → Color) (x y : Nat) (hx : x < WIDTH) (hy : y < HEIGHT)
    (hne : seeds ≠ [])
    (hrange : ∀ s ∈ seeds,
      0 ≤ s.x ∧ s.x < (WIDTH : Int) ∧ 0 ≤ s.y ∧ s.y < (HEIGHT : Int)) :
    RenderVoronoi WIDTH HEIGHT seeds img1 (y * WIDTH + x) =
      RenderVoronoi WIDTH HEIGHT seeds img2 (y * WIDTH + x) ∧
    RenderVoronoi WIDTH HEIGHT seeds img1 (y * WIDTH + x) ≠ COLOR_BACKGROUND := by
  have hg1 : RenderVoronoi WIDTH HEIGHT seeds img1 (y * WIDTH + x) =
      voronoiPixelColor seeds x y :=
    renderGrid_hit WIDTH (fun a b => voronoiPixelColor seeds a b) HEIGHT img1 x y hx hy
  have hg2 : RenderVoronoi WIDTH HEIGHT seeds img2 (y * WIDTH + x) =
      voronoiPixelColor seeds x y :=
    renderGrid_hit WIDTH (fun a b => voronoiPixelColor seeds a b) HEIGHT img2 x y hx hy
  refine ⟨hg1.trans hg2.symm, ?_⟩
  rw [hg1]
  obtain ⟨h1, -, -⟩ := closest_spec seeds ⟨(x : Int), (y : Int)⟩ hne
  set w := seeds.getD (closestSeedIdx seeds ⟨(x : Int), (y : Int)⟩) ⟨0, 0⟩ with hw
  have hmem : w ∈ seeds := by
    rw [hw, List.getD_eq_getElem _ _ h1]
    exact List.getElem_mem h1
  obtain ⟨ha, hb, hc, hd⟩ := hrange w hmem
  have hW1000 : (WIDTH : Int) = 1000 := by norm_num [WIDTH]
  have hH1000 : (HEIGHT : Int) = 1000 := by norm_num [HEIGHT]
  have hxb : w.x.toNat < 1000 := by omega
  have hyb : w.y.toNat < 1000 := by omega
  unfold voronoiPixelColor
  rw [← hw]
  unfold SeedToColor
  rw [if_pos ⟨ha, hc, by omega, by omega⟩, Option.getD_some,
    Nat.mod_eq_of_lt (show w.x.toNat < 65536 by omega),
    Nat.mod_eq_of_lt (show w.y.toNat < 65536 by omega)]
  have e16 : (2 : Nat) ^ 16 = 65536 := by norm_num
  have e26 : (2 : Nat) ^ 26 = 67108864 := by norm_num
  have hlt1 : w.x.toNat <<< 16 < 2 ^ 26 := by
    rw [Nat.shiftLeft_eq, e16, e26]
    omega
  have hlt2 : w.y.toNat < 2 ^ 26 := by
    rw [e26]
    omega
  have hxor := Nat.xor_lt_two_pow hlt1 hlt2
  rw [e26] at hxor
  have hbg : COLOR_BACKGROUND = 4280293143 := by decide
  rw [hbg]
  intro heq
  rw [heq] at hxor
  exact absurd hxor (by decide)

/-- Witness for C10 at a concrete input: with the single in-range seed (2,2)
the pixel (0,0) of the 1000 × 1000 raster gets the same seed-derived color
whatever the prior buffer contents, and that color is not the background. -/
theorem renderVoronoi_overwrites_every_pixel_app :
    RenderVoronoi WIDTH HEIGHT [⟨2, 2⟩] (fun _ => 0) (0 * WIDTH + 0) =
      RenderVoronoi WIDTH HEIGHT [⟨2, 2⟩] (fun _ => 1) (0 * WIDTH + 0) ∧
    RenderVoronoi WIDTH HEIGHT [⟨2, 2⟩] (fun _ => 0) (0 * WIDTH + 0) ≠
      COLOR_BACKGROUND := by
  exact renderVoronoi_overwrites_every_pixel [⟨2, 2⟩] (fun _ => 0) (fun _ => 1) 0 0
    (by decide) (by decide) (by decide) (by decide)

/-- C10 counterexample: the claim as stated fails for an adversarial seed
set.  The seed (65312, 5911) is legal for `SeedToColor` (both coordinates
fit 16 bits, so no assertion fires), yet its derived color is exactly
`(65312 << 16) ^ 5911 = 0xFF201717 = COLOR_BACKGROUND`: after `RenderVoronoi`
over the background-filled buffer, pixel (0,0) still holds the background
color, so the background IS observable for this seed set. -/
theorem renderVoronoi_background_observable :
    RenderVoronoi WIDTH HEIGHT [⟨65312, 5911⟩]
      (FillImage WIDTH HEIGHT COLOR_BACKGROUND (fun _ => 0)) (0 * WIDTH + 0) =
      COLOR_BACKGROUND := by
  have h := renderGrid_hit WIDTH (fun a b => voronoiPixelColor [⟨65312, 5911⟩] a b) HEIGHT
    (FillImage WIDTH HEIGHT COLOR_BACKGROUND (fun _ => 0)) 0 0 (by decide) (by decide)
  exact h.trans (by decide)

/-! ### FillCircle: characterization of the painted pixel set -/

/-- Generic fold over `List.range n` whose steps write the constant color
`c` exactly at the addresses characterized by `Hit`: if some step hits the
address, the final value there is `c`. -/
lemma foldWrite_hit (c : Color) (step : (Nat → Color) → Nat → (Nat → Color))
    (Hit : Nat → Nat → Prop)
    (hstep_hit : ∀ im k a, Hit k a → step im k a = c)
    (hstep_miss : ∀ im k a, ¬ Hit k a → step im k a = im a) :
    ∀ (n : Nat) (im : Nat → Color) (a : Nat), (∃ k, k < n ∧ Hit k a) →
      ((List.range n).foldl step im) a = c := by
  intro n
  induction n with
  | zero =>
    intro im a h
    obtain ⟨k, hk, -⟩ := h
    exact absurd hk (Nat.not_lt_zero k)
  | succ n ih =>
    intro im a h
    obtain ⟨k, hk, hHit⟩ := h
    rw [List.range_succ, List.foldl_append, List.foldl_cons, List.foldl_nil]
    by_cases hn : Hit n a
    · exact hstep_hit _ n a hn
    · rw [hstep_miss _ n a hn]
      have hk' : k < n := by
        rcases Nat.lt_succ_iff_lt_or_eq.mp hk with hlt | heq
        · exact hlt
        · subst heq; exact absurd hHit hn
      exact ih im a ⟨k, hk', hHit⟩

/-- Companion of `foldWrite_hit`: if no step hits the address, the fold
leaves it unchanged. -/
lemma foldWrite_miss (step : (Nat → Color) → Nat → (Nat → Color))
    (Hit : Nat → Nat → Prop)
    (hstep_miss : ∀ im k a, ¬ Hit k a → step im k a = im a) :
    ∀ (n : Nat) (im : Nat → Color) (a : Nat), (∀ k, k < n → ¬ Hit k a) →
      ((List.range n).foldl step im) a = im a := by
  intro n
  induction n with
  | zero => intro im a _; rfl
  | succ n ih =>
    intro im a h
    rw [List.range_succ, List.foldl_append, List.foldl_cons, List.foldl_nil,
      hstep_miss _ n a (h n (Nat.lt_succ_self n))]
    exact ih im a (fun k hk => h k (Nat.lt_succ_of_lt hk))

/-- Inner-loop step `j` of `FillCircle` at column value `x` hits flat
address `a`: the candidate row is in vertical bounds, the squared-distance
test passes, and `a` is the candidate's address. -/
def CircleHitY (W H : Nat) (origin : Vec2) (radius : Int) (x : Int) (j a : Nat) : Prop :=
  (0 ≤ origin.y - radius + (j : Int) ∧ origin.y - radius + (j : Int) < (H : Int)) ∧
  SquareDistance origin ⟨x, origin.y - radius + (j : Int)⟩ ≤ radius * radius ∧
  a = (origin.y - radius + (j : Int)).toNat * W + x.toNat

/-- Outer-loop step `i` of `FillCircle` hits flat address `a`: the candidate
column is in horizontal bounds and some inner step hits `a`. -/
def CircleHitX (W H : Nat) (origin : Vec2) (radius : Int) (i a : Nat) : Prop :=
  (0 ≤ origin.x - radius + (i : Int) ∧ origin.x - radius + (i : Int) < (W : Int)) ∧
  ∃ j, j < (2 * radius).toNat ∧
    CircleHitY W H origin radius (origin.x - radius + (i : Int)) j a

lemma circleInnerStep_miss (W H : Nat) (origin : Vec2) (radius : Int) (color : Color)
    (x : Int) (im2 : Nat → Color) (j2 b2 : Nat)
    (h : ¬ CircleHitY W H origin radius x j2 b2) :
    (if 0 ≤ origin.y - radius + (j2 : Int) ∧ origin.y - radius + (j2 : Int) < (H : Int) then
        if SquareDistance origin ⟨x, origin.y - radius + (j2 : Int)⟩ ≤ radius * radius then
          writeAddr ((origin.y - radius + (j2 : Int)).toNat * W + x.toNat) color im2
        else im2
      else im2) b2 = im2 b2 := by
  by_cases hy : 0 ≤ origin.y - radius + (j2 : Int) ∧ origin.y - radius + (j2 : Int) < (H : Int)
  · rw [if_pos hy]
    by_cases hsd : SquareDistance origin ⟨x, origin.y - radius + (j2 : Int)⟩ ≤ radius * radius
    · rw [if_pos hsd]
      exact writeAddr_other _ _ _ _ (fun hb => h ⟨hy, hsd, hb⟩)
    · rw [if_neg hsd]
  · rw [if_neg hy]

lemma circleInner_hit (W H : Nat) (origin : Vec2) (radius : Int) (color : Color) (x : Int) :
    ∀ (n : Nat) (im : Nat → Color) (b : Nat),
      (∃ j, j < n ∧ CircleHitY W H origin radius x j b) →
      ((List.range n).foldl
        (fun im2 (j : Nat) =>
          if 0 ≤ origin.y - radius + (j : Int) ∧ origin.y - radius + (j : Int) < (H : Int) then
            if SquareDistance origin ⟨x, origin.y - radius + (j : Int)⟩ ≤ radius * radius then
              writeAddr ((origin.y - radius + (j : Int)).toNat * W + x.toNat) color im2
            else im2
          else im2) im) b = color := by
  intro n
  induction n with
  | zero =>
    intro im b h
    obtain ⟨j, hj, -⟩ := h
    exact absurd hj (Nat.not_lt_zero j)
  | succ n ih =>
    intro im b h
    obtain ⟨j, hj, hHit⟩ := h
    rw [List.range_succ, List.foldl_append, List.foldl_cons, List.foldl_nil]
    by_cases hn : CircleHitY W H origin radius x n b
    · rw [if_pos hn.1, if_pos hn.2.1, hn.2.2]
      exact writeAddr_self _ _ _
    · rw [circleInnerStep_miss W H origin radius color x _ n b hn]
      have hj' : j < n := by
        rcases Nat.lt_succ_iff_lt_or_eq.mp hj with hlt | heq
        · exact hlt
        · subst heq; exact absurd hHit hn
      exact ih im b ⟨j, hj', hHit⟩

lemma circleInner_miss (W H : Nat) (origin : Vec2) (radius : Int) (color : Color) (x : Int) :
    ∀ (n : Nat) (im : Nat → Color) (b : Nat),
      (∀ j, j < n → ¬ CircleHitY W H origin radius x j b) →
      ((List.range n).foldl
        (fun im2 (j : Nat) =>
          if 0 ≤ origin.y - radius + (j : Int) ∧ origin.y - radius + (j : Int) < (H : Int) then
            if SquareDistance origin ⟨x, origin.y - radius + (j : Int)⟩ ≤ radius * radius then
              writeAddr ((origin.y - radius + (j : Int)).toNat * W + x.toNat) color im2
            else im2
          else im2) im) b = im b := by
  intro n
  induction n with
  | zero => intro im b _; rfl
  | succ n ih =>
    intro im b h
    rw [List.range_succ, List.foldl_append, List.foldl_cons, List.foldl_nil,
      circleInnerStep_miss W H origin radius color x _ n b (h n (Nat.lt_succ_self n))]
    exact ih im b (fun j hj => h j (Nat.lt_succ_of_lt hj))

/-- If some loop step of `FillCircle` hits address `a`, the final value
there is the paint color. -/
lemma fillCircle_painted (W H : Nat) (origin : Vec2) (radius : Int) (color : Color)
    (img : Nat → Color) (a : Nat)
    (h : ∃ i, i < (2 * radius).toNat ∧ CircleHitX W H origin radius i a) :
    FillCircle W H origin radius color img a = color := by
  unfold FillCircle
  refine foldWrite_hit color _ (CircleHitX W H origin radius) ?_ ?_
    (2 * radius).toNat img a h
  · intro im k b hk
    dsimp only
    rw [if_pos hk.1]
    exact circleInner_hit W H origin radius color (origin.x - radius + (k : Int)) _ im b hk.2
  · intro im k b hk
    dsimp only
    by_cases hxb : 0 ≤ origin.x - radius + (k : Int) ∧ origin.x - radius + (k : Int) < (W : Int)
    · rw [if_pos hxb]
      refine circleInner_miss W H origin radius color (origin.x - radius + (k : Int)) _ im b ?_
      intro j hj hHit
      exact hk ⟨hxb, j, hj, hHit⟩
    · rw [if_neg hxb]

/-- If no loop step of `FillCircle` hits address `a`, the buffer is
unchanged there. -/
lemma fillCircle_nopaint (W H : Nat) (origin : Vec2) (radius : Int) (color : Color)
    (img : Nat → Color) (a : Nat)
    (h : ∀ i, i < (2 * radius).toNat → ¬ CircleHitX W H origin radius i a) :
    FillCircle W H origin radius color img a = img a := by
  unfold FillCircle
  refine foldWrite_miss _ (CircleHitX W H origin radius) ?_ (2 * radius).toNat img a h
  intro im k b hk
  dsimp only
  by_cases hxb : 0 ≤ origin.x - radius + (k : Int) ∧ origin.x - radius + (k : Int) < (W : Int)
  · rw [if_pos hxb]
    refine circleInner_miss W H origin radius color (origin.x - radius + (k : Int)) _ im b ?_
    intro j hj hHit
    exact hk ⟨hxb, j, hj, hHit⟩
  · rw [if_neg hxb]

/-- Every address a `FillCircle` loop step can hit is the address of an
in-bounds pixel. -/
lemma circleHitX_inBounds (W H : Nat) (origin : Vec2) (radius : Int) (i a : Nat)
    (h : CircleHitX W H origin radius i a) :
    ∃ x y, x < W ∧ y < H ∧ a = y * W + x := by
  obtain ⟨⟨hx0, hxW⟩, j, hj, ⟨⟨hy0, hyH⟩, hsd, haddr⟩⟩ := h
  refine ⟨(origin.x - radius + (i : Int)).toNat, (origin.y - radius + (j : Int)).toNat,
    by omega, by omega, haddr⟩

/-- `FillCircle` leaves every address that is not an in-bounds pixel
untouched. -/
lemma fillCircle_outside (W H : Nat) (origin : Vec2) (radius : Int) (color : Color)
    (img : Nat → Color) (a : Nat)
    (hout : ∀ x y, x < W → y < H → a ≠ y * W + x) :
    FillCircle W H origin radius color img a = img a := by
  apply fillCircle_nopaint
  intro i _ hHit
  obtain ⟨x, y, hx, hy, haddr⟩ := circleHitX_inBounds W H origin radius i a hHit
  exact hout x y hx hy haddr

lemma renderSeedMarkers_outside (W H : Nat) (a : Nat)
    (hout : ∀ x y, x < W → y < H → a ≠ y * W + x) :
    ∀ (seeds : List Vec2) (img : Nat → Color),
      RenderSeedMarkers W H seeds img a = img a := by
  intro seeds
  induction seeds with
  | nil => intro img; rfl
  | cons s ss ih =>
    intro img
    show RenderSeedMarkers W H ss
      (FillCircle W H s SEED_MARKER_RADIUS SEED_MARKER_COLOR img) a = img a
    rw [ih (FillCircle W H s SEED_MARKER_RADIUS SEED_MARKER_COLOR img)]
    exact fillCircle_outside W H s SEED_MARKER_RADIUS SEED_MARKER_COLOR img a hout

/-- C7: for every center point and every radius, `FillCircle` writes only to
pixels with `0 ≤ x < W` and `0 ≤ y < H` — every candidate of the bounding
square outside the buffer bounds is skipped, so any address that is not an
in-bounds pixel keeps its previous value — and consequently the marker discs
stamped by `RenderSeedMarkers` (radius `SEED_MARKER_RADIUS`, even when it
extends past the buffer edge) cause no out-of-bounds write either. -/
theorem fillCircle_clips_to_bounds (W H : Nat) (origin : Vec2) (radius : Int)
    (color : Color) (seeds : List Vec2) (img : Nat → Color) (a : Nat)
    (hout : ∀ x, x < W → ∀ y, y < H → a ≠ y * W + x) :
    FillCircle W H origin radius color img a = img a ∧
    RenderSeedMarkers W H seeds img a = img a :=
  ⟨fillCircle_outside W H origin radius color img a (fun x y hx hy => hout x hx y hy),
   renderSeedMarkers_outside W H a (fun x y hx hy => hout x hx y hy) seeds img⟩

/-- Witness for C7 at concrete input: on a 2 × 2 buffer the off-grid flat
address 4 survives both a huge disc at the corner seed (0,0) and the marker
pass over the boundary seeds (0,0) and (1,1). -/
theorem fillCircle_clips_to_bounds_app :
    FillCircle 2 2 ⟨0, 0⟩ 3 7 (fun _ => 9) 4 = 9 ∧
    RenderSeedMarkers 2 2 [⟨0, 0⟩, ⟨1, 1⟩] (fun _ => 9) 4 = 9 := by
  exact fillCircle_clips_to_bounds 2 2 ⟨0, 0⟩ 3 7 [⟨0, 0⟩, ⟨1, 1⟩] (fun _ => 9) 4
    (by decide)

/-- Flat addresses of in-bounds pixels decompose uniquely into row and
column. -/
lemma flatAddr_inj (W a1 b1 a2 b2 : Nat) (hb1 : b1 < W) (hb2 : b2 < W)
    (h : a1 * W + b1 = a2 * W + b2) : a1 = a2 ∧ b1 = b2 := by
  have hW : 0 < W := Nat.lt_of_le_of_lt (Nat.zero_le b1) hb1
  have hbb : b1 = b2 := by
    have h1 : (a1 * W + b1) % W = b1 := by
      rw [Nat.mul_comm a1 W, Nat.mul_add_mod, Nat.mod_eq_of_lt hb1]
    have h2 : (a2 * W + b2) % W = b2 := by
      rw [Nat.mul_comm a2 W, Nat.mul_add_mod, Nat.mod_eq_of_lt hb2]
    rw [← h1, ← h2, h]
  subst hbb
  exact ⟨Nat.eq_of_mul_eq_mul_right hW (Nat.add_right_cancel h), rfl⟩

/-- C2 (amended): for every in-bounds pixel `(px, py)`, `FillCircle` paints
the pixel with the given color exactly when it lies in the HALF-OPEN
bounding square `[origin.x - radius, origin.x + radius) ×
[origin.y - radius, origin.y + radius)` and passes the squared-distance test
`dx² + dy² ≤ radius²`; otherwise the pixel keeps its previous value.  (The
original claim — exactly the in-bounds pixels with squared distance
≤ radius² — fails on the right/bottom edge of the bounding square, which the
half-open iteration never visits; see the counterexample.) -/
theorem fillCircle_paints_halfOpen_clipped_disc (W H : Nat) (origin : Vec2)
    (radius : Int) (color : Color) (img : Nat → Color) (px py : Nat)
    (hpx : px < W) (hpy : py < H) :
    FillCircle W H origin radius color img (py * W + px) =
      if origin.x - radius ≤ (px : Int) ∧ (px : Int) < origin.x + radius ∧
          origin.y - radius ≤ (py : Int) ∧ (py : Int) < origin.y + radius ∧
          SquareDistance origin ⟨(px : Int), (py : Int)⟩ ≤ radius * radius
      then color else img (py * W + px) := by
  by_cases hc : origin.x - radius ≤ (px : Int) ∧ (px : Int) < origin.x + radius ∧
      origin.y - radius ≤ (py : Int) ∧ (py : Int) < origin.y + radius ∧
      SquareDistance origin ⟨(px : Int), (py : Int)⟩ ≤ radius * radius
  · rw [if_pos hc]
    obtain ⟨h1, h2, h3, h4, h5⟩ := hc
    have hxi : origin.x - radius + ((((px : Int) - (origin.x - radius)).toNat : Nat) : Int) =
        (px : Int) := by omega
    have hyj : origin.y - radius + ((((py : Int) - (origin.y - radius)).toNat : Nat) : Int) =
        (py : Int) := by omega
    apply fillCircle_painted
    refine ⟨((px : Int) - (origin.x - radius)).toNat, by omega,
      ⟨⟨by omega, by omega⟩, ((py : Int) - (origin.y - radius)).toNat, by omega,
        ⟨⟨by omega, by omega⟩, ?_, ?_⟩⟩⟩
    · rw [hxi, hyj]
      exact h5
    · rw [hxi, hyj, Int.toNat_natCast, Int.toNat_natCast]
  · rw [if_neg hc]
    apply fillCircle_nopaint
    intro i hi hHit
    obtain ⟨⟨hx0, hxW⟩, j, hj, ⟨⟨hy0, hyH⟩, hsd, haddr⟩⟩ := hHit
    have hxlt : (origin.x - radius + (i : Int)).toNat < W := by omega
    have hylt : (origin.y - radius + (j : Int)).toNat < H := by omega
    obtain ⟨hyeq, hxeq⟩ := flatAddr_inj W py px
      ((origin.y - radius + (j : Int)).toNat) ((origin.x - radius + (i : Int)).toNat)
      hpx hxlt haddr
    have hxv : origin.x - radius + (i : Int) = (px : Int) := by omega
    have hyv : origin.y - radius + (j : Int) = (py : Int) := by omega
    apply hc
    refine ⟨by omega, by omega, by omega, by omega, ?_⟩
    rw [← hxv, ← hyv]
    exact hsd

/-- Witness for C2 at concrete input: the in-square pixel (46, 50) at
squared distance 16 ≤ 25 from center (50, 50) is painted with the color. -/
theorem fillCircle_paints_halfOpen_clipped_disc_app :
    FillCircle 100 100 ⟨50, 50⟩ 5 7 (fun _ => 0) (50 * 100 + 46) = 7 := by
  exact (fillCircle_paints_halfOpen_clipped_disc 100 100 ⟨50, 50⟩ 5 7 (fun _ => 0)
    46 50 (by decide) (by decide)).trans (by decide)

/-- C2 counterexample: pixel (55, 50) is in bounds and lies within Euclidean
distance 5 of the center (50, 50) — its squared distance is exactly 25 ≤ 5² —
yet `FillCircle(center=(50,50), radius=5)` does NOT paint it (the buffer
keeps its previous value 0, not the paint color 7), because the half-open
column iteration `[45, 55)` never visits column 55.  So the claim that
exactly the in-bounds pixels with squared distance ≤ radius² are painted is
false. -/
theorem fillCircle_boundary_pixel_missed :
    (55 : Nat) < 1000 ∧ (50 : Nat) < 1000 ∧
    SquareDistance ⟨50, 50⟩ ⟨55, 50⟩ ≤ 5 * 5 ∧
    FillCircle 1000 1000 ⟨50, 50⟩ 5 7 (fun _ => 0) (50 * 1000 + 55) = 0 ∧
    (0 : Nat) ≠ 7 := by
  exact ⟨by decide, by decide, by decide, by decide, by decide⟩

end Voronoi
